import Mathlib

/-!
Shallow embedding of the `logger-go` repository (package `logger`):
a structured logger wrapper (logger.go) and two Fiber HTTP middlewares
(middleware.go).  Go maps `map[string]interface{}` are modelled as
association lists with unique keys (`LogContext`), Go `interface{}`
values as the inductive `Value`, and the zap emission side effect as a
pure `Record` value.  Stateful pieces (the `sync.Once` singleton, the
in-place map mutation in `Error`) are modelled by explicit state
passing.
-/

namespace LoggerGo

/-- Model of a Go `interface{}` value as it occurs in this package:
strings, integers, booleans, `error` values (carrying their message,
as returned by `Error()`), header maps, and nil. -/
inductive Value where
  | str : String → Value
  | int : Int → Value
  | bool : Bool → Value
  | err : String → Value
  | headers : List (String × String) → Value
  | nil : Value
deriving Repr, DecidableEq

/-- `LogContext` (`map[string]interface{}`): association list, keys unique. -/
abbrev LogContext := List (String × Value)

/-- Go map read `m[k]` (without the ok flag): `some v` when present. -/
def ctxGet (m : LogContext) (k : String) : Option Value :=
  (m.find? (fun p => p.1 == k)).map Prod.snd

/-- Go `delete(m, k)`. -/
def ctxErase (m : LogContext) (k : String) : LogContext :=
  m.filter (fun p => p.1 != k)

/-- Go map write `m[k] = v`: overwrite an existing binding or add one. -/
def ctxInsert (m : LogContext) (k : String) (v : Value) : LogContext :=
  ctxErase m k ++ [(k, v)]

/-! ### types.go -/

/-- `LogLevel` constants. -/
inductive LogLevel where
  | INFO | ERROR | WARN | DEBUG
deriving Repr, DecidableEq

/-- `LogType` constants (the string emitted as `log_type`). -/
inductive LogType where
  | normal | http | error | security | audit | debug
deriving Repr, DecidableEq

/-- The string value of a `LogType` constant. -/
def LogType.toStr : LogType → String
  | .normal => "normal"
  | .http => "http"
  | .error => "error"
  | .security => "security"
  | .audit => "audit"
  | .debug => "debug"

/-- `Config` passed to `Initialize`. -/
structure Config where
  serviceName : String
  serviceVersion : String
  env : String
  level : LogLevel
deriving Repr, DecidableEq

/-! ### Fields helper (types.go `Fields`) -/

/-- Outcome of a Go function that may `panic`. -/
inductive FieldsResult where
  | ok : LogContext → FieldsResult
  | panicked : String → FieldsResult
deriving Repr, DecidableEq

/-- The loop body of `Fields`: `for i := 0; i < len-1; i += 2` with the
string type assertion on each key position and a map write per pair. -/
def fieldsLoop : List Value → LogContext → FieldsResult
  | [], acc => .ok acc
  | [_], acc => .ok acc
  | k :: v :: rest, acc =>
    match k with
    | .str s => fieldsLoop rest (ctxInsert acc s v)
    | _ => .panicked "Field keys must be strings"

/-- `Fields(keysAndValues ...interface{}) LogContext`: panics on an odd
argument count, otherwise fills a fresh map pair by pair. -/
def Fields (keysAndValues : List Value) : FieldsResult :=
  if keysAndValues.length % 2 ≠ 0 then
    .panicked "Fields requires an even number of arguments"
  else
    fieldsLoop keysAndValues []

/-- `MeasureDuration`: `float64(time.Since(start).Milliseconds())` —
the elapsed nanoseconds truncated to whole milliseconds, then widened.
Modelled over ℚ (the float value is exact for these magnitudes). -/
def MeasureDuration (elapsedNs : ℕ) : ℚ :=
  ((elapsedNs / 1000000 : ℕ) : ℚ)

/-! ### Trace context (logger.go `getTraceContext`) -/

/-- OpenTelemetry `SpanContext`: a 16-byte trace id and an 8-byte span
id.  `IsValid()` requires both to be non-zero. -/
structure SpanContext where
  traceId : ℕ
  spanId : ℕ
deriving Repr, DecidableEq

/-- `SpanContext.IsValid()`: trace id and span id both non-zero. -/
def SpanContext.isValid (sc : SpanContext) : Bool :=
  sc.traceId ≠ 0 && sc.spanId ≠ 0

/-- One lowercase hex digit. -/
def hexDigit (n : ℕ) : Char :=
  if n < 10 then Char.ofNat (48 + n) else Char.ofNat (87 + n)

/-- `width` lowercase hex digits of `n`, most significant first
(fixed width, leading zeros), as produced by Go's `hex.Encode` on the
id bytes. -/
def toHex (n : ℕ) : ℕ → List Char
  | 0 => []
  | w + 1 => toHex (n / 16) w ++ [hexDigit (n % 16)]

/-- `TraceID.String()`: 32 lowercase hex characters. -/
def traceIdString (sc : SpanContext) : String :=
  ⟨toHex sc.traceId 32⟩

/-- `SpanID.String()`: 16 lowercase hex characters. -/
def spanIdString (sc : SpanContext) : String :=
  ⟨toHex sc.spanId 16⟩

/-- A Go `context.Context` as this package observes it: `nil`, a
context carrying a span, or a context without one (for which
`trace.SpanFromContext` yields a no-op span whose `SpanContext` is the
zero value, hence invalid). -/
inductive GoCtx where
  | nil : GoCtx
  | withSpan : SpanContext → GoCtx
  | plain : GoCtx
deriving Repr, DecidableEq

/-- `trace.SpanFromContext(ctx).SpanContext()` for a non-nil `ctx`. -/
def spanFromContext : GoCtx → SpanContext
  | .withSpan sc => sc
  | _ => ⟨0, 0⟩

/-- `getTraceContext`: `[]` for a nil context or an invalid span
context, otherwise the two canonical string fields. -/
def getTraceContext (ctx : GoCtx) : List (String × Value) :=
  match ctx with
  | .nil => []
  | c =>
    let sc := spanFromContext c
    if ¬ sc.isValid then []
    else [("trace_id", .str (traceIdString sc)), ("span_id", .str (spanIdString sc))]

/-! ### Records and entry points (logger.go) -/

/-- zap severity at which an entry point emits. -/
inductive Severity where
  | debug | info | warn | error
deriving Repr, DecidableEq

/-- One emitted log record: severity, message, and the field list built
by `buildFields` (in built order). -/
structure Record where
  level : Severity
  message : String
  fields : List (String × Value)
deriving Repr, DecidableEq

/-- First-match lookup in a record's field list. -/
def fieldGet (r : Record) (k : String) : Option Value :=
  ctxGet r.fields k

/-- `buildFields`: `log_type` first, then the trace fields, then every
entry of the caller map. -/
def buildFields (ctx : GoCtx) (logType : LogType) (context : LogContext) :
    List (String × Value) :=
  ("log_type", .str logType.toStr) :: getTraceContext ctx ++ context

/-- `Info`: Info severity, category normal; the map is only read. -/
def Info (ctx : GoCtx) (message : String) (context : LogContext) :
    Record × LogContext :=
  (⟨.info, message, buildFields ctx .normal context⟩, context)

/-- `Error`: performs the error-object substitution on the caller map
(in place), then emits at Error severity, category error. -/
def Error (ctx : GoCtx) (message : String) (context : LogContext) :
    Record × LogContext :=
  let context' :=
    match ctxGet context "error" with
    | some (.err e) =>
        ctxErase
          (ctxInsert (ctxInsert context "error_message" (.str e))
            "error_type" (.str "error"))
          "error"
    | _ => context
  (⟨.error, message, buildFields ctx .error context'⟩, context')

/-- `Warn`: Warn severity, category normal; the map is only read. -/
def Warn (ctx : GoCtx) (message : String) (context : LogContext) :
    Record × LogContext :=
  (⟨.warn, message, buildFields ctx .normal context⟩, context)

/-- `Debug`: Debug severity, category debug; the map is only read. -/
def Debug (ctx : GoCtx) (message : String) (context : LogContext) :
    Record × LogContext :=
  (⟨.debug, message, buildFields ctx .debug context⟩, context)

/-- `HTTP`: Info severity, category http; the map is only read. -/
def HTTP (ctx : GoCtx) (message : String) (context : LogContext) :
    Record × LogContext :=
  (⟨.info, message, buildFields ctx .http context⟩, context)

/-- `Security`: Warn severity, category security; the map is only read. -/
def Security (ctx : GoCtx) (message : String) (context : LogContext) :
    Record × LogContext :=
  (⟨.warn, message, buildFields ctx .security context⟩, context)

/-- `Audit`: Info severity, category audit; the map is only read. -/
def Audit (ctx : GoCtx) (message : String) (context : LogContext) :
    Record × LogContext :=
  (⟨.info, message, buildFields ctx .audit context⟩, context)

/-! ### Singleton initialization (logger.go `Initialize`) -/

/-- The `Logger` struct: the captured config plus what `buildZapLogger`
bakes into the zap pipeline (constant fields and minimum level). -/
structure Logger where
  config : Config
  hostname : String
deriving Repr, DecidableEq

/-- `getZapLevel`: convert `LogLevel` to the zap minimum level
(`default:` falls back to Info). -/
def getZapLevel (l : LogLevel) : Severity :=
  match l with
  | .DEBUG => .debug
  | .WARN => .warn
  | .ERROR => .error
  | _ => .info

/-- `buildZapLogger` as captured state: the logger with its config and
the resolved hostname attached as constant fields. -/
def buildLogger (config : Config) (hostname : String) : Logger :=
  ⟨config, hostname⟩

/-- `Initialize`: `once.Do` (the global `instance` is the explicit
state: `none` before the first call) builds the instance only when the
state is empty; every call returns the stored instance. -/
def Initialize (st : Option Logger) (config : Config) (hostname : String) :
    Option Logger × Logger :=
  match st with
  | some inst => (some inst, inst)
  | none =>
    let inst := buildLogger config hostname
    (some inst, inst)

/-- A sequence of `Initialize` calls threaded through the global state,
returning the final state and the handle each call returned. -/
def runInitialize (hostname : String) :
    Option Logger → List Config → Option Logger × List Logger
  | st, [] => (st, [])
  | st, cfg :: rest =>
    let (st', inst) := Initialize st cfg hostname
    let (stFin, insts) := runInitialize hostname st' rest
    (stFin, inst :: insts)

/-! ### HTTP middleware (middleware.go) -/

/-- `MiddlewareOptions`. -/
structure MiddlewareOptions where
  excludePaths : List String
  includeHeaders : Bool
  includeBody : Bool
deriving Repr, DecidableEq

/-- The request as the middleware observes it through the Fiber
context: method, path, raw query string, client address, User-Agent
header, full header map, the `user_id` local (if set), and the user
context carrying the trace span. -/
structure Request where
  method : String
  path : String
  query : String
  ip : String
  userAgent : String
  headers : List (String × String)
  localsUserId : Option Value
  userCtx : GoCtx
deriving Repr, DecidableEq

/-- What the downstream chain (`c.Next()`) did: the response status
code it left behind and the error value it returned. -/
structure Downstream where
  status : ℕ
  err : Option String
deriving Repr, DecidableEq

/-- Which logger entry point the access middleware dispatched to. -/
inductive Dispatched where
  | error | warn | http
deriving Repr, DecidableEq

/-- Result of one request through `FiberMiddleware`: the records
emitted (tagged with the entry point used) and the propagated error. -/
structure MWResult where
  emitted : List (Dispatched × Record)
  err : Option String
deriving Repr, DecidableEq

/-- The exclusion loop: `for _, excludePath := range opts.ExcludePaths
{ if path == excludePath { return c.Next() } }`. -/
def pathExcluded (excludePaths : List String) (path : String) : Bool :=
  excludePaths.any (fun excludePath => path == excludePath)

/-- The map literal `FiberMiddleware` starts from: method, path,
status_code, duration_ms (`duration.Milliseconds()`, the elapsed
nanoseconds truncated to whole milliseconds), ip and user_agent. -/
def accessLogBase (req : Request) (status : ℕ) (elapsedNs : ℕ) :
    LogContext :=
  [("method", .str req.method),
   ("path", .str req.path),
   ("status_code", .int status),
   ("duration_ms", .int ((elapsedNs / 1000000 : ℕ) : ℤ)),
   ("ip", .str req.ip),
   ("user_agent", .str req.userAgent)]

/-- The context map built by `FiberMiddleware` (map literal plus the
three conditional writes). -/
def accessLogContext (opts : MiddlewareOptions) (req : Request)
    (status : ℕ) (elapsedNs : ℕ) : LogContext :=
  let withQuery := if req.query.length > 0
    then ctxInsert (accessLogBase req status elapsedNs) "query"
      (.str req.query)
    else accessLogBase req status elapsedNs
  let withHeaders := if opts.includeHeaders
    then ctxInsert withQuery "headers" (.headers req.headers)
    else withQuery
  match req.localsUserId with
  | some userId => ctxInsert withHeaders "user_id" userId
  | none => withHeaders

/-- `FiberMiddleware` handler on one request.  `opts? = none` models a
nil options pointer (replaced by the zero value).  `elapsedNs` is the
wall-clock duration of the downstream call; `duration.Milliseconds()`
truncates it to whole milliseconds. -/
def FiberMiddleware (opts? : Option MiddlewareOptions) (req : Request)
    (downstream : Downstream) (elapsedNs : ℕ) : MWResult :=
  let opts := opts?.getD ⟨[], false, false⟩
  if pathExcluded opts.excludePaths req.path then
    { emitted := [], err := downstream.err }
  else
    let context := accessLogContext opts req downstream.status elapsedNs
    let message :=
      req.method ++ " " ++ req.path ++ " " ++ toString downstream.status
    let emitted :=
      if downstream.status ≥ 500 then
        [(Dispatched.error, (Error req.userCtx message context).1)]
      else if downstream.status ≥ 400 then
        [(Dispatched.warn, (Warn req.userCtx message context).1)]
      else
        [(Dispatched.http, (HTTP req.userCtx message context).1)]
    { emitted := emitted, err := downstream.err }

/-- What the handler wrapped by `RecoveryMiddleware` did: completed
normally (returning an error value and leaving its own response), or
panicked with some value. -/
inductive HandlerRun where
  | ok : Option String → HandlerRun
  | panicked : Value → HandlerRun
deriving Repr, DecidableEq

/-- Result of one request through `RecoveryMiddleware`: records
emitted, the response override (`some (status, body)` when the wrapper
wrote the 500 JSON, `none` when the downstream response stands), the
returned error, and the fault if one propagated out. -/
structure RecoveryResult where
  emitted : List Record
  override : Option (ℕ × String)
  err : Option String
  propagated : Option Value
deriving Repr, DecidableEq

/-- The fixed JSON body `fiber.Map{"error": "internal server error"}`. -/
def recoveryBody : String := "\x7b\"error\":\"internal server error\"\x7d"

/-- `RecoveryMiddleware` handler on one request: the deferred
`recover()` turns a panic into one Error record and a 500 response;
a normal completion passes through untouched. -/
def RecoveryMiddleware (req : Request) (run : HandlerRun) : RecoveryResult :=
  match run with
  | .ok err => { emitted := [], override := none, err := err, propagated := none }
  | .panicked r =>
    let context : LogContext :=
      [("method", .str req.method),
       ("path", .str req.path),
       ("panic", r),
       ("status_code", .int 500)]
    { emitted := [(Error req.userCtx "Panic recovered" context).1],
      override := some (500, recoveryBody),
      err := none,
      propagated := none }

/-! Auxiliary definitions used to state the claims about `Fields`. -/

/-- Whether a `Value` is a Go string (the `.(string)` type assertion). -/
def Value.isStr : Value → Bool
  | .str _ => true
  | _ => false

/-- Whether some key position (index 0, 2, 4, …) of an argument list
holds a non-string value. -/
def hasNonStringKey : List Value → Bool
  | k :: _ :: rest => !k.isStr || hasNonStringKey rest
  | _ => false

/-- An alternating key/value argument list with string keys, written as
its list of pairs.  Even-length argument lists whose key positions all
hold strings are exactly the lists of this shape. -/
def flattenPairs : List (String × Value) → List Value
  | [] => []
  | (k, v) :: rest => .str k :: v :: flattenPairs rest

/-- One iteration of the `Fields` loop on an already-split pair. -/
def insertPair (m : LogContext) (p : String × Value) : LogContext :=
  ctxInsert m p.1 p.2

/-- The value bound to `k` by the LAST pair of `ps` carrying that key
(Go map writes are last-wins). -/
def lookupLast (ps : List (String × Value)) (k : String) : Option Value :=
  ps.foldl (fun acc p => if p.1 == k then some p.2 else acc) none

/-- A concrete request used to instantiate the middleware theorems. -/
def sampleReq : Request :=
  { method := "GET", path := "/api/users", query := "", ip := "1.2.3.4",
    userAgent := "curl", headers := [], localsUserId := none,
    userCtx := .nil }

/-! Lemmas about the association-list model of Go maps. -/

lemma ctxGet_nil (k : String) : ctxGet [] k = none := rfl

lemma ctxGet_cons (k' : String) (v : Value) (m : LogContext) (k : String) :
    ctxGet ((k', v) :: m) k = if k' = k then some v else ctxGet m k := by
  by_cases h : k' = k
  · simp [ctxGet, List.find?, h]
  · simp only [ctxGet, List.find?]
    have hb : (k' == k) = false := by simpa using h
    simp [hb, h]

lemma ctxGet_append (l₁ l₂ : LogContext) (k : String) :
    ctxGet (l₁ ++ l₂) k = (ctxGet l₁ k).or (ctxGet l₂ k) := by
  induction l₁ with
  | nil => simp [ctxGet_nil]
  | cons p l ih =>
    obtain ⟨k', v⟩ := p
    by_cases h : k' = k <;> simp [ctxGet_cons, h, ih]

lemma ctxGet_erase_self (m : LogContext) (k : String) :
    ctxGet (ctxErase m k) k = none := by
  induction m with
  | nil => rfl
  | cons p l ih =>
    obtain ⟨k', v⟩ := p
    by_cases h : k' = k
    · simpa [ctxErase, h] using ih
    · have hb : (k' != k) = true := by simpa using h
      simpa [ctxErase, hb, ctxGet_cons, h] using ih

lemma ctxGet_erase_ne (m : LogContext) (k k' : String) (h : k' ≠ k) :
    ctxGet (ctxErase m k) k' = ctxGet m k' := by
  induction m with
  | nil => rfl
  | cons p l ih =>
    obtain ⟨a, v⟩ := p
    by_cases ha : a = k
    · have hb : (a != k) = false := by simp [ha]
      have hak : a ≠ k' := fun hc => h (hc.symm.trans ha)
      rw [show ctxErase ((a, v) :: l) k = ctxErase l k from by
        simp [ctxErase, List.filter_cons, hb]]
      rw [ih, ctxGet_cons, if_neg hak]
    · have hb : (a != k) = true := by simpa using ha
      rw [show ctxErase ((a, v) :: l) k = (a, v) :: ctxErase l k from by
        simp [ctxErase, List.filter_cons, hb]]
      rw [ctxGet_cons, ctxGet_cons, ih]

lemma ctxGet_insert_self (m : LogContext) (k : String) (v : Value) :
    ctxGet (ctxInsert m k v) k = some v := by
  simp [ctxInsert, ctxGet_append, ctxGet_erase_self, ctxGet_cons]

lemma ctxGet_insert_ne (m : LogContext) (k : String) (v : Value)
    (k' : String) (h : k' ≠ k) :
    ctxGet (ctxInsert m k v) k' = ctxGet m k' := by
  have hk : k ≠ k' := fun hc => h hc.symm
  simp [ctxInsert, ctxGet_append, ctxGet_erase_ne m k k' h, ctxGet_cons, hk]
  cases ctxGet m k' <;> rfl

lemma ctxErase_eq_of_not_mem (m : LogContext) (k : String)
    (h : k ∉ m.map Prod.fst) : ctxErase m k = m := by
  induction m with
  | nil => rfl
  | cons p l ih =>
    obtain ⟨a, v⟩ := p
    have h1 : ¬ a = k := fun hc => h (by simp [hc])
    have h2 : k ∉ l.map Prod.fst := fun hc => h (by simp [hc])
    have hb : (a != k) = true := by simpa using h1
    rw [show ctxErase ((a, v) :: l) k = (a, v) :: ctxErase l k from by
      simp [ctxErase, List.filter_cons, hb]]
    rw [ih h2]

/-! Lemmas about `buildFields` and the entry points. -/

lemma getTraceContext_withSpan (sc : SpanContext) :
    getTraceContext (.withSpan sc) =
      if sc.isValid then
        [("trace_id", .str (traceIdString sc)),
         ("span_id", .str (spanIdString sc))]
      else [] := by
  by_cases hv : sc.isValid = true <;>
    simp [getTraceContext, spanFromContext, hv]

lemma getTraceContext_get_ne (ctx : GoCtx) (k : String)
    (h2 : k ≠ "trace_id") (h3 : k ≠ "span_id") :
    ctxGet (getTraceContext ctx) k = none := by
  cases ctx with
  | nil => rfl
  | withSpan sc =>
    rw [getTraceContext_withSpan]
    by_cases hv : sc.isValid = true
    · rw [if_pos hv, ctxGet_cons, if_neg (fun hc => h2 hc.symm),
        ctxGet_cons, if_neg (fun hc => h3 hc.symm)]
      rfl
    · rw [if_neg hv]
      rfl
  | plain => rfl

lemma buildFields_get_of_trace_none (ctx : GoCtx) (lt : LogType)
    (m : LogContext) (k : String) (h1 : k ≠ "log_type")
    (ht : ctxGet (getTraceContext ctx) k = none) :
    ctxGet (buildFields ctx lt m) k = ctxGet m k := by
  unfold buildFields
  rw [ctxGet_append, ctxGet_cons, if_neg (fun hc => h1 hc.symm), ht]
  cases ctxGet m k <;> rfl

lemma buildFields_get_ne (ctx : GoCtx) (lt : LogType) (m : LogContext)
    (k : String) (h1 : k ≠ "log_type") (h2 : k ≠ "trace_id")
    (h3 : k ≠ "span_id") :
    ctxGet (buildFields ctx lt m) k = ctxGet m k :=
  buildFields_get_of_trace_none ctx lt m k h1
    (getTraceContext_get_ne ctx k h2 h3)

lemma buildFields_get_trace (sc : SpanContext) (lt : LogType)
    (m : LogContext) (hv : sc.isValid = true) :
    ctxGet (buildFields (.withSpan sc) lt m) "trace_id" =
        some (.str (traceIdString sc)) ∧
    ctxGet (buildFields (.withSpan sc) lt m) "span_id" =
        some (.str (spanIdString sc)) := by
  unfold buildFields
  rw [ctxGet_append, getTraceContext_withSpan, if_pos hv]
  constructor <;> simp [ctxGet_cons]

lemma Error_eq_of_no_err (ctx : GoCtx) (msg : String) (m : LogContext)
    (h : ctxGet m "error" = none) :
    Error ctx msg m = (⟨.error, msg, buildFields ctx .error m⟩, m) := by
  unfold Error
  rw [h]

lemma Error_eq_of_err (ctx : GoCtx) (msg : String) (m : LogContext)
    (e : String) (h : ctxGet m "error" = some (.err e)) :
    Error ctx msg m =
      (⟨.error, msg,
        buildFields ctx .error
          (ctxErase
            (ctxInsert (ctxInsert m "error_message" (.str e))
              "error_type" (.str "error")) "error")⟩,
       ctxErase
         (ctxInsert (ctxInsert m "error_message" (.str e))
           "error_type" (.str "error")) "error") := by
  unfold Error
  rw [h]

lemma Error_eq_of_other (ctx : GoCtx) (msg : String) (m : LogContext)
    (v : Value) (h : ctxGet m "error" = some v) (hne : ∀ e, v ≠ .err e) :
    Error ctx msg m = (⟨.error, msg, buildFields ctx .error m⟩, m) := by
  unfold Error
  rw [h]
  cases v with
  | err e => exact absurd rfl (hne e)
  | str s => rfl
  | int n => rfl
  | bool b => rfl
  | headers hs => rfl
  | nil => rfl

/-! Claim theorems about the logger core. -/

/-- C2: if the handler wrapped by `RecoveryMiddleware` panics with any
value, the wrapper emits exactly one Error-severity record with message
"Panic recovered" and fields method/path/panic/status_code 500,
responds 500 with the fixed JSON body, and does not re-propagate the
fault; if the handler completes normally the wrapper changes nothing
and emits no record. -/
theorem recovery_middleware_spec :
    (∀ (req : Request) (v : Value),
      ∃ rec : Record,
        RecoveryMiddleware req (.panicked v) =
          ⟨[rec], some (500, recoveryBody), none, none⟩ ∧
        rec.level = Severity.error ∧
        rec.message = "Panic recovered" ∧
        fieldGet rec "method" = some (.str req.method) ∧
        fieldGet rec "path" = some (.str req.path) ∧
        fieldGet rec "panic" = some v ∧
        fieldGet rec "status_code" = some (.int 500)) ∧
    (∀ (req : Request) (e : Option String),
      RecoveryMiddleware req (.ok e) = ⟨[], none, e, none⟩) := by
  constructor
  · intro req v
    have hno : ctxGet [("method", Value.str req.method),
        ("path", Value.str req.path), ("panic", v),
        ("status_code", Value.int 500)] "error" = none := rfl
    have herr := Error_eq_of_no_err req.userCtx "Panic recovered"
      [("method", Value.str req.method), ("path", Value.str req.path),
       ("panic", v), ("status_code", Value.int 500)] hno
    refine ⟨(Error req.userCtx "Panic recovered"
      [("method", Value.str req.method), ("path", Value.str req.path),
       ("panic", v), ("status_code", Value.int 500)]).1,
      rfl, rfl, rfl, ?_, ?_, ?_, ?_⟩ <;>
      rw [herr] <;>
      · show ctxGet (buildFields req.userCtx .error _) _ = _
        rw [buildFields_get_ne _ _ _ _ (by decide) (by decide) (by decide)]
        rfl
  · intro req e
    rfl

/-- Witness for C2 at a concrete input: a string panic yields one
record with message "Panic recovered" and the 500 override. -/
theorem recovery_middleware_spec_witness :
    ∃ rec : Record,
      RecoveryMiddleware sampleReq (.panicked (Value.str "boom")) =
        ⟨[rec], some (500, recoveryBody), none, none⟩ ∧
      rec.message = "Panic recovered" ∧
      fieldGet rec "panic" = some (Value.str "boom") := by
  obtain ⟨rec, h1, _, h3, _, _, h6, _⟩ :=
    recovery_middleware_spec.1 sampleReq (Value.str "boom")
  exact ⟨rec, h1, h3, h6⟩

/-- C3: the `Error` entry point replaces an error-like `error` field by
`error_message` (the message text) and `error_type` (the fixed marker
"error"), removes `error`, and mutates the caller map in place; a
non-error-like `error` value passes through unchanged. -/
theorem error_object_substitution :
    (∀ (ctx : GoCtx) (msg : String) (m : LogContext) (e : String),
      ctxGet m "error" = some (.err e) →
      ctxGet (Error ctx msg m).2 "error" = none ∧
      ctxGet (Error ctx msg m).2 "error_message" = some (.str e) ∧
      ctxGet (Error ctx msg m).2 "error_type" = some (.str "error") ∧
      fieldGet (Error ctx msg m).1 "error" = none ∧
      fieldGet (Error ctx msg m).1 "error_message" = some (.str e) ∧
      fieldGet (Error ctx msg m).1 "error_type" = some (.str "error")) ∧
    (∀ (ctx : GoCtx) (msg : String) (m : LogContext) (v : Value),
      ctxGet m "error" = some v → (∀ e, v ≠ .err e) →
      (Error ctx msg m).2 = m ∧
      fieldGet (Error ctx msg m).1 "error" = some v) := by
  constructor
  · intro ctx msg m e h
    rw [Error_eq_of_err ctx msg m e h]
    have hg1 : ctxGet (ctxErase
        (ctxInsert (ctxInsert m "error_message" (.str e))
          "error_type" (.str "error")) "error") "error" = none :=
      ctxGet_erase_self _ _
    have hg2 : ctxGet (ctxErase
        (ctxInsert (ctxInsert m "error_message" (.str e))
          "error_type" (.str "error")) "error") "error_message" =
        some (.str e) := by
      rw [ctxGet_erase_ne _ _ _ (by decide),
        ctxGet_insert_ne _ _ _ _ (by decide), ctxGet_insert_self]
    have hg3 : ctxGet (ctxErase
        (ctxInsert (ctxInsert m "error_message" (.str e))
          "error_type" (.str "error")) "error") "error_type" =
        some (.str "error") := by
      rw [ctxGet_erase_ne _ _ _ (by decide), ctxGet_insert_self]
    refine ⟨hg1, hg2, hg3, ?_, ?_, ?_⟩ <;>
      · show ctxGet (buildFields ctx .error _) _ = _
        rw [buildFields_get_ne _ _ _ _ (by decide) (by decide) (by decide)]
        first
          | exact hg1
          | exact hg2
          | exact hg3
  · intro ctx msg m v h hne
    rw [Error_eq_of_other ctx msg m v h hne]
    refine ⟨rfl, ?_⟩
    show ctxGet (buildFields ctx .error m) "error" = some v
    rw [buildFields_get_ne _ _ _ _ (by decide) (by decide) (by decide)]
    exact h

/-- Witness for C3 at concrete inputs: an error-like `error` value is
substituted, a plain string `error` value passes through. -/
theorem error_object_substitution_witness :
    (ctxGet (Error .nil "boom" [("error", Value.err "disk full")]).2
        "error" = none ∧
      fieldGet (Error .nil "boom" [("error", Value.err "disk full")]).1
        "error_message" = some (.str "disk full")) ∧
    ((Error .nil "x" [("error", Value.str "plain")]).2 =
        [("error", Value.str "plain")] ∧
      fieldGet (Error .nil "x" [("error", Value.str "plain")]).1
        "error" = some (.str "plain")) := by
  have h1 := error_object_substitution.1 .nil "boom"
    [("error", Value.err "disk full")] "disk full" rfl
  have h2 := error_object_substitution.2 .nil "x"
    [("error", Value.str "plain")] (Value.str "plain") rfl
    (fun e hc => Value.noConfusion hc)
  exact ⟨⟨h1.1, h1.2.2.2.2.1⟩, h2⟩

/-- C4 (amended): provided the caller map itself binds neither
`trace_id` nor `span_id`, the built field list contains `trace_id` and
`span_id` as their canonical hex encodings when the context carries a
valid span, and contains neither field when the context is nil, has no
span, or carries an invalid span. -/
theorem trace_context_fields (ctx : GoCtx) (lt : LogType)
    (m : LogContext) (hT : ctxGet m "trace_id" = none)
    (hS : ctxGet m "span_id" = none) :
    (∀ sc : SpanContext, ctx = .withSpan sc → sc.isValid = true →
      ctxGet (buildFields ctx lt m) "trace_id" =
          some (.str (traceIdString sc)) ∧
      ctxGet (buildFields ctx lt m) "span_id" =
          some (.str (spanIdString sc))) ∧
    ((ctx = .nil ∨ ctx = .plain ∨
        ∃ sc, ctx = .withSpan sc ∧ sc.isValid = false) →
      ctxGet (buildFields ctx lt m) "trace_id" = none ∧
      ctxGet (buildFields ctx lt m) "span_id" = none) := by
  constructor
  · intro sc hsc hv
    subst hsc
    exact buildFields_get_trace sc lt m hv
  · intro hbad
    have htr : getTraceContext ctx = [] := by
      rcases hbad with h | h | ⟨sc, h, hv⟩
      · subst h; rfl
      · subst h; rfl
      · subst h
        rw [getTraceContext_withSpan, if_neg (by simp [hv])]
    constructor
    · rw [buildFields_get_of_trace_none ctx lt m _ (by decide)
        (by rw [htr]; rfl)]
      exact hT
    · rw [buildFields_get_of_trace_none ctx lt m _ (by decide)
        (by rw [htr]; rfl)]
      exact hS

/-- Witness for C4 at concrete inputs: a valid span yields both fields,
a nil context yields neither. -/
theorem trace_context_fields_witness :
    ctxGet (buildFields (.withSpan ⟨1, 2⟩) .normal []) "trace_id" =
        some (.str (traceIdString ⟨1, 2⟩)) ∧
    ctxGet (buildFields .nil .normal []) "trace_id" = none ∧
    ctxGet (buildFields .nil .normal []) "span_id" = none := by
  have h1 := (trace_context_fields (.withSpan ⟨1, 2⟩) .normal []
    rfl rfl).1 ⟨1, 2⟩ rfl (by decide)
  have h2 := (trace_context_fields .nil .normal [] rfl rfl).2
    (Or.inl rfl)
  exact ⟨h1.1, h2.1, h2.2⟩

/-- Counterexample for C4 as literally stated: a logging call with a
nil (absent) trace context whose caller map itself binds `trace_id`
still produces a record containing a `trace_id` field. -/
theorem trace_context_fields_cex :
    fieldGet (Info .nil "msg" [("trace_id", Value.str "bogus")]).1
      "trace_id" = some (Value.str "bogus") := rfl

/-- C9: the info, warn, debug, http, security and audit entry points
leave the caller map unchanged; only the error entry point mutates it. -/
theorem non_error_entry_points_readonly :
    (∀ (ctx : GoCtx) (msg : String) (m : LogContext),
      (Info ctx msg m).2 = m) ∧
    (∀ (ctx : GoCtx) (msg : String) (m : LogContext),
      (Warn ctx msg m).2 = m) ∧
    (∀ (ctx : GoCtx) (msg : String) (m : LogContext),
      (Debug ctx msg m).2 = m) ∧
    (∀ (ctx : GoCtx) (msg : String) (m : LogContext),
      (HTTP ctx msg m).2 = m) ∧
    (∀ (ctx : GoCtx) (msg : String) (m : LogContext),
      (Security ctx msg m).2 = m) ∧
    (∀ (ctx : GoCtx) (msg : String) (m : LogContext),
      (Audit ctx msg m).2 = m) ∧
    (∃ (ctx : GoCtx) (msg : String) (m : LogContext),
      (Error ctx msg m).2 ≠ m) := by
  refine ⟨?_, ?_, ?_, ?_, ?_, ?_,
    ⟨.nil, "", [("error", Value.err "x")], by decide⟩⟩ <;>
  · intro ctx msg m
    rfl

/-- Witness for C9 at a concrete input: `Info` and `HTTP` return the
caller map unchanged. -/
theorem non_error_entry_points_readonly_witness :
    (Info .nil "m" [("k", Value.int 1)]).2 = [("k", Value.int 1)] ∧
    (HTTP .nil "m" [("k", Value.int 1)]).2 = [("k", Value.int 1)] :=
  ⟨non_error_entry_points_readonly.1 .nil "m" [("k", Value.int 1)],
    non_error_entry_points_readonly.2.2.2.1 .nil "m"
      [("k", Value.int 1)]⟩

/-! The singleton claim. -/

lemma runInitialize_some (h : String) (i : Logger) :
    ∀ cfgs : List Config,
      runInitialize h (some i) cfgs = (some i, List.replicate cfgs.length i)
  | [] => rfl
  | cfg :: rest => by
    have ih := runInitialize_some h i rest
    simp [runInitialize, Initialize, ih, List.replicate_succ]

/-- C6: `Initialize` called N>1 times returns the instance built by the
first call every time — the final state and every returned handle equal
the logger built from the first configuration, whose captured config is
the first argument; later arguments are ignored. -/
theorem initialize_idempotent (hostname : String) (cfg : Config)
    (cfgs : List Config) :
    runInitialize hostname none (cfg :: cfgs) =
      (some (buildLogger cfg hostname),
       List.replicate (cfgs.length + 1) (buildLogger cfg hostname)) ∧
    (buildLogger cfg hostname).config = cfg := by
  refine ⟨?_, rfl⟩
  have h := runInitialize_some hostname (buildLogger cfg hostname) cfgs
  simp [runInitialize, Initialize, h, List.replicate_succ]

/-- Witness for C6 at a concrete input: two `Initialize` calls with
different configurations both return the logger built from the first. -/
theorem initialize_idempotent_witness :
    runInitialize "host" none
        [⟨"svc", "1.0", "prod", .INFO⟩, ⟨"other", "2.0", "dev", .DEBUG⟩] =
      (some (buildLogger ⟨"svc", "1.0", "prod", .INFO⟩ "host"),
       List.replicate 2 (buildLogger ⟨"svc", "1.0", "prod", .INFO⟩
         "host")) :=
  (initialize_idempotent "host" ⟨"svc", "1.0", "prod", .INFO⟩
    [⟨"other", "2.0", "dev", .DEBUG⟩]).1

/-! Lemmas about the access-logging middleware. -/

lemma pathExcluded_iff (l : List String) (p : String) :
    pathExcluded l p = true ↔ p ∈ l := by
  simp only [pathExcluded, List.any_eq_true, beq_iff_eq]
  constructor
  · rintro ⟨e, he, rfl⟩
    exact he
  · intro h
    exact ⟨p, h, rfl⟩

lemma accessCtx_get_ne (opts : MiddlewareOptions) (req : Request)
    (s el : ℕ) (k : String) (hq : k ≠ "query") (hh : k ≠ "headers")
    (hu : k ≠ "user_id") :
    ctxGet (accessLogContext opts req s el) k =
      ctxGet (accessLogBase req s el) k := by
  unfold accessLogContext
  cases req.localsUserId <;> dsimp only <;> split <;> split <;>
    simp only [ctxGet_insert_ne _ _ _ _ hu, ctxGet_insert_ne _ _ _ _ hh,
      ctxGet_insert_ne _ _ _ _ hq]

lemma accessCtx_status (opts : MiddlewareOptions) (req : Request)
    (s el : ℕ) :
    ctxGet (accessLogContext opts req s el) "status_code" =
      some (.int s) := by
  rw [accessCtx_get_ne opts req s el _ (by decide) (by decide) (by decide)]
  rfl

lemma accessCtx_duration (opts : MiddlewareOptions) (req : Request)
    (s el : ℕ) :
    ctxGet (accessLogContext opts req s el) "duration_ms" =
      some (.int ((el / 1000000 : ℕ) : ℤ)) := by
  rw [accessCtx_get_ne opts req s el _ (by decide) (by decide) (by decide)]
  rfl

lemma accessCtx_error_none (opts : MiddlewareOptions) (req : Request)
    (s el : ℕ) :
    ctxGet (accessLogContext opts req s el) "error" = none := by
  rw [accessCtx_get_ne opts req s el _ (by decide) (by decide) (by decide)]
  rfl

lemma FiberMiddleware_not_excluded (opts? : Option MiddlewareOptions)
    (req : Request) (ds : Downstream) (el : ℕ)
    (hex : pathExcluded (opts?.getD ⟨[], false, false⟩).excludePaths
      req.path = false) :
    FiberMiddleware opts? req ds el =
      { emitted :=
          if ds.status ≥ 500 then
            [(Dispatched.error,
              (Error req.userCtx
                (req.method ++ " " ++ req.path ++ " " ++ toString ds.status)
                (accessLogContext (opts?.getD ⟨[], false, false⟩) req
                  ds.status el)).1)]
          else if ds.status ≥ 400 then
            [(Dispatched.warn,
              (Warn req.userCtx
                (req.method ++ " " ++ req.path ++ " " ++ toString ds.status)
                (accessLogContext (opts?.getD ⟨[], false, false⟩) req
                  ds.status el)).1)]
          else
            [(Dispatched.http,
              (HTTP req.userCtx
                (req.method ++ " " ++ req.path ++ " " ++ toString ds.status)
                (accessLogContext (opts?.getD ⟨[], false, false⟩) req
                  ds.status el)).1)],
        err := ds.err } := by
  unfold FiberMiddleware
  dsimp only
  rw [if_neg (by simp [hex])]

/-! Claim theorems about the middlewares. -/

/-- C1: for every non-excluded request, exactly one record is emitted,
dispatched by the downstream status: `>= 500` to the error entry point,
`400..499` to the warn entry point, everything else to the http entry
point; the record carries the status in `status_code`. -/
theorem accessLog_dispatch (opts? : Option MiddlewareOptions)
    (req : Request) (ds : Downstream) (elapsedNs : ℕ)
    (hex : pathExcluded (opts?.getD ⟨[], false, false⟩).excludePaths
      req.path = false) :
    (FiberMiddleware opts? req ds elapsedNs).emitted.length = 1 ∧
    (500 ≤ ds.status →
      ∃ rec, (FiberMiddleware opts? req ds elapsedNs).emitted =
          [(Dispatched.error, rec)] ∧
        rec.level = Severity.error ∧
        fieldGet rec "status_code" = some (.int ds.status)) ∧
    (400 ≤ ds.status → ds.status < 500 →
      ∃ rec, (FiberMiddleware opts? req ds elapsedNs).emitted =
          [(Dispatched.warn, rec)] ∧
        rec.level = Severity.warn ∧
        fieldGet rec "status_code" = some (.int ds.status)) ∧
    (ds.status < 400 →
      ∃ rec, (FiberMiddleware opts? req ds elapsedNs).emitted =
          [(Dispatched.http, rec)] ∧
        rec.level = Severity.info ∧
        fieldGet rec "status_code" = some (.int ds.status)) := by
  rw [FiberMiddleware_not_excluded opts? req ds elapsedNs hex]
  have hstat : ∀ lt,
      ctxGet (buildFields req.userCtx lt
        (accessLogContext (opts?.getD ⟨[], false, false⟩) req
          ds.status elapsedNs)) "status_code" = some (.int ds.status) :=
    fun lt => by
      rw [buildFields_get_ne _ _ _ _ (by decide) (by decide) (by decide)]
      exact accessCtx_status _ _ _ _
  have herr := Error_eq_of_no_err req.userCtx
    (req.method ++ " " ++ req.path ++ " " ++ toString ds.status)
    (accessLogContext (opts?.getD ⟨[], false, false⟩) req ds.status
      elapsedNs)
    (accessCtx_error_none _ _ _ _)
  by_cases h5 : 500 ≤ ds.status
  · simp only [ge_iff_le, if_pos h5]
    refine ⟨rfl, fun _ => ⟨_, rfl, rfl, ?_⟩,
      fun _ h5' => absurd h5 (by omega),
      fun h4 => absurd h5 (by omega)⟩
    rw [herr]
    exact hstat _
  · by_cases h4 : 400 ≤ ds.status
    · simp only [ge_iff_le, if_neg h5, if_pos h4]
      exact ⟨rfl, fun h => absurd h h5,
        fun _ _ => ⟨_, rfl, rfl, hstat _⟩,
        fun h => absurd h (by omega)⟩
    · simp only [ge_iff_le, if_neg h5, if_neg h4]
      exact ⟨rfl, fun h => absurd h h5,
        fun h _ => absurd h h4,
        fun _ => ⟨_, rfl, rfl, hstat _⟩⟩

/-- Witness for C1 at a concrete input: a request answered 404 yields
exactly one warn-dispatched record whose `status_code` field is 404. -/
theorem accessLog_dispatch_witness :
    ∃ rec, (FiberMiddleware (some ⟨["/health"], false, false⟩) sampleReq
        ⟨404, none⟩ 5000000).emitted = [(Dispatched.warn, rec)] ∧
      rec.level = Severity.warn ∧
      fieldGet rec "status_code" = some (.int 404) := by
  have h := accessLog_dispatch (some ⟨["/health"], false, false⟩)
    sampleReq ⟨404, none⟩ 5000000 (by decide)
  exact h.2.2.1 (by decide) (by decide)

/-- C7: a request path exactly equal to an excluded entry skips all
logging and propagates the downstream result directly; a path that
merely starts with an excluded entry (without being equal to one) still
produces exactly one record. -/
theorem accessLog_exact_exclusion (opts : MiddlewareOptions)
    (req : Request) (ds : Downstream) (el : ℕ) :
    (req.path ∈ opts.excludePaths →
      FiberMiddleware (some opts) req ds el = ⟨[], ds.err⟩) ∧
    ((∃ e ∈ opts.excludePaths, e.data <+: req.path.data) →
      req.path ∉ opts.excludePaths →
      (FiberMiddleware (some opts) req ds el).emitted.length = 1 ∧
      (FiberMiddleware (some opts) req ds el).err = ds.err) := by
  constructor
  · intro hmem
    have hx : pathExcluded opts.excludePaths req.path = true :=
      (pathExcluded_iff _ _).mpr hmem
    unfold FiberMiddleware
    dsimp only
    simp only [Option.getD_some]
    rw [if_pos hx]
  · intro _ hmem
    have hex : pathExcluded opts.excludePaths req.path = false := by
      cases hb : pathExcluded opts.excludePaths req.path
      · rfl
      · exact absurd ((pathExcluded_iff _ _).mp hb) hmem
    rw [FiberMiddleware_not_excluded (some opts) req ds el hex]
    constructor
    · dsimp only
      split
      · rfl
      · split <;> rfl
    · rfl

/-- Witness for C7 at concrete inputs: "/health" excluded exactly emits
nothing; "/healthz", which merely extends the excluded prefix, emits
one record. -/
theorem accessLog_exact_exclusion_witness :
    FiberMiddleware (some ⟨["/health"], false, false⟩)
        { sampleReq with path := "/health" } ⟨200, none⟩ 1000 =
      ⟨[], none⟩ ∧
    (FiberMiddleware (some ⟨["/health"], false, false⟩)
        { sampleReq with path := "/healthz" } ⟨200, none⟩ 1000).emitted.length
      = 1 := by
  have h1 := (accessLog_exact_exclusion ⟨["/health"], false, false⟩
    { sampleReq with path := "/health" } ⟨200, none⟩ 1000).1 (by decide)
  have h2 := (accessLog_exact_exclusion ⟨["/health"], false, false⟩
    { sampleReq with path := "/healthz" } ⟨200, none⟩ 1000).2
    ⟨"/health", by decide, by decide⟩ (by decide)
  exact ⟨h1, h2.1⟩

/-- C8 (amended): for every non-excluded request, the `duration_ms`
field of the emitted record equals the elapsed wall-clock nanoseconds
truncated to WHOLE milliseconds (`duration.Milliseconds()`), not a
fractional value. -/
theorem accessLog_duration_truncated (opts? : Option MiddlewareOptions)
    (req : Request) (ds : Downstream) (el : ℕ)
    (hex : pathExcluded (opts?.getD ⟨[], false, false⟩).excludePaths
      req.path = false) :
    ∀ pr ∈ (FiberMiddleware opts? req ds el).emitted,
      fieldGet pr.2 "duration_ms" =
        some (.int ((el / 1000000 : ℕ) : ℤ)) := by
  rw [FiberMiddleware_not_excluded opts? req ds el hex]
  have hdur : ∀ lt,
      ctxGet (buildFields req.userCtx lt
        (accessLogContext (opts?.getD ⟨[], false, false⟩) req
          ds.status el)) "duration_ms" =
        some (.int ((el / 1000000 : ℕ) : ℤ)) :=
    fun lt => by
      rw [buildFields_get_ne _ _ _ _ (by decide) (by decide) (by decide)]
      exact accessCtx_duration _ _ _ _
  have herr := Error_eq_of_no_err req.userCtx
    (req.method ++ " " ++ req.path ++ " " ++ toString ds.status)
    (accessLogContext (opts?.getD ⟨[], false, false⟩) req ds.status el)
    (accessCtx_error_none _ _ _ _)
  intro pr hpr
  dsimp only at hpr
  split at hpr <;> [skip; split at hpr] <;>
    simp only [List.mem_singleton] at hpr <;> subst hpr
  · dsimp only
    rw [herr]
    exact hdur _
  · exact hdur _
  · exact hdur _

/-- Witness for C8 at a concrete input: 2.5 ms elapsed is recorded as
the whole-millisecond value 2 in the record the wrapper emits. -/
theorem accessLog_duration_truncated_witness :
    fieldGet (HTTP sampleReq.userCtx
        (sampleReq.method ++ " " ++ sampleReq.path ++ " " ++
          toString (200 : ℕ))
        (accessLogContext ⟨[], false, false⟩ sampleReq 200 2500000)).1
      "duration_ms" = some (.int 2) := by
  have h := accessLog_duration_truncated (some ⟨[], false, false⟩)
    sampleReq ⟨200, none⟩ 2500000 (by decide)
  exact h (Dispatched.http, (HTTP sampleReq.userCtx
      (sampleReq.method ++ " " ++ sampleReq.path ++ " " ++
        toString (200 : ℕ))
      (accessLogContext ⟨[], false, false⟩ sampleReq 200 2500000)).1)
    (by decide)

/-- Counterexample for C8 as literally stated: with an elapsed time of
1.5 ms the emitted `duration_ms` is the integer 1, while the elapsed
duration in fractional milliseconds is 1500000/1000000 = 1.5, so
sub-millisecond precision is NOT preserved. -/
theorem accessLog_duration_cex :
    (∀ pr ∈ (FiberMiddleware (some ⟨[], false, false⟩) sampleReq
        ⟨200, none⟩ 1500000).emitted,
      fieldGet pr.2 "duration_ms" = some (.int 1)) ∧
    (1500000 : ℚ) / 1000000 ≠ (1 : ℚ) := by
  constructor
  · decide
  · norm_num

/-! Lemmas about the `Fields` helper. -/

lemma flattenPairs_length : ∀ ps : List (String × Value),
    (flattenPairs ps).length = 2 * ps.length
  | [] => rfl
  | (k, v) :: rest => by
    simp only [flattenPairs, List.length_cons, flattenPairs_length rest]
    omega

lemma fieldsLoop_flatten : ∀ (ps : List (String × Value))
    (acc : LogContext),
    fieldsLoop (flattenPairs ps) acc = .ok (ps.foldl insertPair acc)
  | [], _ => rfl
  | (k, v) :: rest, acc => fieldsLoop_flatten rest (ctxInsert acc k v)

lemma foldl_insertPair_nodup : ∀ (ps : List (String × Value))
    (acc : LogContext),
    (∀ p ∈ ps, p.1 ∉ acc.map Prod.fst) → (ps.map Prod.fst).Nodup →
    ps.foldl insertPair acc = acc ++ ps
  | [], acc, _, _ => by simp
  | (k, v) :: rest, acc, hdisj, hnodup => by
    have hcons : k ∉ rest.map Prod.fst ∧ (rest.map Prod.fst).Nodup := by
      have h0 : ((k, v) :: rest).map Prod.fst = k :: rest.map Prod.fst :=
        rfl
      rw [h0, List.nodup_cons] at hnodup
      exact hnodup
    have hk : k ∉ acc.map Prod.fst := hdisj (k, v) (List.mem_cons_self _ _)
    have hins : insertPair acc (k, v) = acc ++ [(k, v)] := by
      show ctxInsert acc k v = acc ++ [(k, v)]
      unfold ctxInsert
      rw [ctxErase_eq_of_not_mem acc k hk]
    have hdisj' : ∀ p ∈ rest, p.1 ∉ (acc ++ [(k, v)]).map Prod.fst := by
      intro p hp
      rw [List.map_append, List.mem_append]
      rintro (h | h)
      · exact hdisj p (List.mem_cons_of_mem _ hp) h
      · have hpk : p.1 = k := by simpa using h
        exact hcons.1 (hpk ▸ List.mem_map_of_mem Prod.fst hp)
    calc ((k, v) :: rest).foldl insertPair acc
        = rest.foldl insertPair (insertPair acc (k, v)) := rfl
      _ = rest.foldl insertPair (acc ++ [(k, v)]) := by rw [hins]
      _ = (acc ++ [(k, v)]) ++ rest :=
          foldl_insertPair_nodup rest _ hdisj' hcons.2
      _ = acc ++ ((k, v) :: rest) := by simp

lemma fieldsLoop_badkey : ∀ (args : List Value) (acc : LogContext),
    args.length % 2 = 0 → hasNonStringKey args = true →
    fieldsLoop args acc = .panicked "Field keys must be strings"
  | [], _, _, hb => by simp [hasNonStringKey] at hb
  | [_], _, he, _ => by simp at he
  | k :: v :: rest, acc, he, hb => by
    cases k with
    | str s =>
      have hb' : hasNonStringKey rest = true := by
        simpa [hasNonStringKey, Value.isStr] using hb
      have he' : rest.length % 2 = 0 := by
        simp only [List.length_cons] at he
        omega
      exact fieldsLoop_badkey rest (ctxInsert acc s v) he' hb'
    | int n => rfl
    | bool b => rfl
    | err e => rfl
    | headers hs => rfl
    | nil => rfl

lemma even_to_pairs : ∀ args : List Value,
    args.length % 2 = 0 → hasNonStringKey args = false →
    ∃ ps : List (String × Value), args = flattenPairs ps
  | [], _, _ => ⟨[], rfl⟩
  | [_], he, _ => by simp at he
  | k :: v :: rest, he, hb => by
    have he' : rest.length % 2 = 0 := by
      simp only [List.length_cons] at he
      omega
    cases k with
    | str s =>
      have hb' : hasNonStringKey rest = false := by
        simpa [hasNonStringKey, Value.isStr] using hb
      obtain ⟨ps, hps⟩ := even_to_pairs rest he' hb'
      exact ⟨(s, v) :: ps, by rw [hps]; rfl⟩
    | int n => simp [hasNonStringKey, Value.isStr] at hb
    | bool b => simp [hasNonStringKey, Value.isStr] at hb
    | err e => simp [hasNonStringKey, Value.isStr] at hb
    | headers hs => simp [hasNonStringKey, Value.isStr] at hb
    | nil => simp [hasNonStringKey, Value.isStr] at hb

lemma foldl_step_init (k : String) : ∀ (ps : List (String × Value))
    (init : Option Value),
    ps.foldl (fun acc p => if p.1 == k then some p.2 else acc) init =
      (ps.foldl (fun acc p => if p.1 == k then some p.2 else acc)
        none).or init
  | [], _ => rfl
  | p :: ps, init => by
    show ps.foldl _ (if p.1 == k then some p.2 else init) = _
    rw [foldl_step_init k ps (if p.1 == k then some p.2 else init)]
    conv_rhs =>
      rw [show (p :: ps).foldl
          (fun acc p => if p.1 == k then some p.2 else acc) none =
          ps.foldl (fun acc p => if p.1 == k then some p.2 else acc)
            (if p.1 == k then some p.2 else none) from rfl]
      rw [foldl_step_init k ps (if p.1 == k then some p.2 else none)]
    cases hc : (p.1 == k) <;>
      cases ps.foldl (fun acc p => if p.1 == k then some p.2 else acc)
        none <;>
      simp [Option.or]

lemma ctxGet_foldl_insertPair : ∀ (ps : List (String × Value))
    (m0 : LogContext) (k : String),
    ctxGet (ps.foldl insertPair m0) k =
      (lookupLast ps k).or (ctxGet m0 k)
  | [], _, _ => rfl
  | (a, b) :: ps, m0, k => by
    show ctxGet (ps.foldl insertPair (ctxInsert m0 a b)) k = _
    rw [ctxGet_foldl_insertPair ps (ctxInsert m0 a b) k]
    rw [show lookupLast ((a, b) :: ps) k =
        (lookupLast ps k).or (if a == k then some b else none) from
      foldl_step_init k ps (if a == k then some b else none)]
    have hins : ctxGet (ctxInsert m0 a b) k =
        if a == k then some b else ctxGet m0 k := by
      by_cases hak : a = k
      · subst hak
        simp [ctxGet_insert_self]
      · have hf : (a == k) = false := by simpa using hak
        rw [hf, if_neg (by simp), ctxGet_insert_ne m0 a b k
          (fun hc => hak hc.symm)]
    rw [hins]
    cases hL : lookupLast ps k <;> cases hak : (a == k) <;>
      simp [Option.or]

lemma mem_keys_insert (m : LogContext) (a k : String) (v : Value) :
    a ∈ (ctxInsert m k v).map Prod.fst ↔
      a = k ∨ a ∈ m.map Prod.fst := by
  simp only [ctxInsert, ctxErase, List.map_append, List.mem_append,
    List.mem_map, List.mem_filter, bne_iff_ne, List.map_cons,
    List.map_nil, List.mem_cons, List.not_mem_nil, or_false]
  constructor
  · rintro (⟨p, ⟨hpm, _⟩, rfl⟩ | rfl)
    · exact Or.inr ⟨p, hpm, rfl⟩
    · exact Or.inl rfl
  · rintro (rfl | ⟨p, hpm, rfl⟩)
    · exact Or.inr rfl
    · by_cases hpk : p.1 = k
      · exact Or.inr hpk
      · exact Or.inl ⟨p, ⟨hpm, hpk⟩, rfl⟩

lemma keys_foldl_mem : ∀ (ps : List (String × Value))
    (acc : LogContext) (a : String),
    a ∈ (ps.foldl insertPair acc).map Prod.fst ↔
      a ∈ acc.map Prod.fst ∨ a ∈ ps.map Prod.fst
  | [], _, _ => by simp
  | (k, v) :: ps, acc, a => by
    show a ∈ (ps.foldl insertPair (ctxInsert acc k v)).map Prod.fst ↔ _
    rw [keys_foldl_mem ps (ctxInsert acc k v) a, mem_keys_insert]
    simp only [List.map_cons, List.mem_cons]
    tauto

lemma nodup_keys_insert (m : LogContext) (k : String) (v : Value)
    (h : (m.map Prod.fst).Nodup) :
    ((ctxInsert m k v).map Prod.fst).Nodup := by
  rw [ctxInsert, List.map_append]
  refine ((List.perm_append_singleton _ _).nodup_iff).mpr ?_
  rw [List.nodup_cons]
  constructor
  · intro hk
    obtain ⟨p, hp, hpk⟩ := List.mem_map.mp hk
    have hne := (List.mem_filter.mp hp).2
    rw [hpk] at hne
    simp at hne
  · exact h.sublist ((List.filter_sublist _).map Prod.fst)

lemma nodup_keys_foldl : ∀ (ps : List (String × Value))
    (acc : LogContext), (acc.map Prod.fst).Nodup →
    ((ps.foldl insertPair acc).map Prod.fst).Nodup
  | [], _, h => h
  | (k, v) :: ps, acc, h =>
    nodup_keys_foldl ps (ctxInsert acc k v) (nodup_keys_insert acc k v h)

lemma length_foldl_insertPair (ps : List (String × Value)) :
    (ps.foldl insertPair []).length = (ps.map Prod.fst).dedup.length := by
  have hnd : ((ps.foldl insertPair []).map Prod.fst).Nodup :=
    nodup_keys_foldl ps [] (by simp)
  have hfs : ((ps.foldl insertPair []).map Prod.fst).toFinset =
      (ps.map Prod.fst).toFinset := by
    refine List.toFinset.ext fun a => ?_
    rw [keys_foldl_mem]
    simp
  calc (ps.foldl insertPair []).length
      = ((ps.foldl insertPair []).map Prod.fst).length :=
        (List.length_map _ _).symm
    _ = ((ps.foldl insertPair []).map Prod.fst).toFinset.card :=
        (List.toFinset_card_of_nodup hnd).symm
    _ = (ps.map Prod.fst).toFinset.card := by rw [hfs]
    _ = (ps.map Prod.fst).dedup.length := List.card_toFinset _

lemma dedup_length_lt (l : List String) (h : ¬ l.Nodup) :
    l.dedup.length < l.length := by
  have hsub := List.dedup_sublist l
  cases lt_or_eq_of_le hsub.length_le with
  | inl h' => exact h'
  | inr h' => exact absurd (hsub.eq_of_length h' ▸ List.nodup_dedup l) h

/-! Claim theorems about the `Fields` helper. -/

/-- C5 (amended): for an even-length, all-string-key argument list with
pairwise-DISTINCT keys, `Fields` returns exactly the supplied pairs
(`count/2` entries); an odd-length list, or one with a non-string value
in a key position, panics.  Lists of the form `flattenPairs ps` are
exactly the even-length all-string-key argument lists (last conjunct). -/
theorem Fields_contract :
    (∀ ps : List (String × Value), (ps.map Prod.fst).Nodup →
      Fields (flattenPairs ps) = .ok ps ∧
      ps.length = (flattenPairs ps).length / 2) ∧
    (∀ args : List Value, args.length % 2 = 1 →
      Fields args =
        .panicked "Fields requires an even number of arguments") ∧
    (∀ args : List Value, args.length % 2 = 0 →
      hasNonStringKey args = true →
      Fields args = .panicked "Field keys must be strings") ∧
    (∀ args : List Value, args.length % 2 = 0 →
      hasNonStringKey args = false →
      ∃ ps : List (String × Value), args = flattenPairs ps) := by
  refine ⟨?_, ?_, ?_, even_to_pairs⟩
  · intro ps hnd
    have heven : (flattenPairs ps).length % 2 = 0 := by
      rw [flattenPairs_length]
      omega
    constructor
    · unfold Fields
      rw [if_neg (not_not_intro heven), fieldsLoop_flatten ps [],
        foldl_insertPair_nodup ps [] (by simp) hnd]
      rw [List.nil_append]
    · rw [flattenPairs_length]
      omega
  · intro args hodd
    unfold Fields
    rw [if_pos (by omega)]
  · intro args he hb
    unfold Fields
    rw [if_neg (not_not_intro he)]
    exact fieldsLoop_badkey args [] he hb

/-- Witness for C5 at concrete inputs: two distinct pairs round-trip,
an odd list panics, a non-string key panics, and an even all-string-key
list is a `flattenPairs` image. -/
theorem Fields_contract_witness :
    Fields (flattenPairs [("a", Value.int 1), ("b", Value.int 2)]) =
      .ok [("a", Value.int 1), ("b", Value.int 2)] ∧
    Fields [Value.str "a"] =
      .panicked "Fields requires an even number of arguments" ∧
    Fields [Value.int 7, Value.int 8] =
      .panicked "Field keys must be strings" ∧
    ∃ ps, [Value.str "x", Value.int 3] = flattenPairs ps :=
  ⟨(Fields_contract.1 [("a", Value.int 1), ("b", Value.int 2)]
      (by decide)).1,
    Fields_contract.2.1 [Value.str "a"] (by decide),
    Fields_contract.2.2.1 [Value.int 7, Value.int 8] (by decide)
      (by decide),
    Fields_contract.2.2.2 [Value.str "x", Value.int 3] (by decide)
      (by decide)⟩

/-- Counterexample for C5 as literally stated: the even-length
all-string-key call `Fields("a", 1, "a", 2)` returns one entry, not
`count/2 = 2` entries. -/
theorem Fields_count_cex :
    Fields [Value.str "a", Value.int 1, Value.str "a", Value.int 2] =
      .ok [("a", Value.int 2)] ∧
    ([("a", Value.int 2)] : LogContext).length ≠
      [Value.str "a", Value.int 1, Value.str "a",
        Value.int 2].length / 2 := by
  constructor
  · decide
  · decide

/-- C10: when some key occurs more than once in an even-length
all-string-key argument list, `Fields` keeps the LAST occurrence's
value for every key, and the entry count equals the number of distinct
keys, strictly less than `count/2`. -/
theorem Fields_duplicate_keys (ps : List (String × Value))
    (hdup : ¬ (ps.map Prod.fst).Nodup) :
    ∃ m, Fields (flattenPairs ps) = .ok m ∧
      (∀ k, ctxGet m k = lookupLast ps k) ∧
      m.length = (ps.map Prod.fst).dedup.length ∧
      m.length < (flattenPairs ps).length / 2 := by
  refine ⟨ps.foldl insertPair [], ?_, ?_, ?_, ?_⟩
  · unfold Fields
    rw [if_neg (not_not_intro (by rw [flattenPairs_length]; omega))]
    exact fieldsLoop_flatten ps []
  · intro k
    rw [ctxGet_foldl_insertPair ps [] k]
    cases lookupLast ps k <;> rfl
  · exact length_foldl_insertPair ps
  · rw [length_foldl_insertPair ps, flattenPairs_length]
    have hlt := dedup_length_lt _ hdup
    have hlen : (ps.map Prod.fst).length = ps.length := List.length_map _ _
    omega

/-- Witness for C10 at a concrete input: `Fields("a", 1, "a", 2)`
yields one entry holding the last value. -/
theorem Fields_duplicate_keys_witness :
    ∃ m, Fields (flattenPairs [("a", Value.int 1), ("a", Value.int 2)]) =
        .ok m ∧
      ctxGet m "a" = some (Value.int 2) ∧ m.length = 1 := by
  obtain ⟨m, h1, h2, h3, _⟩ := Fields_duplicate_keys
    [("a", Value.int 1), ("a", Value.int 2)] (by decide)
  refine ⟨m, h1, ?_, ?_⟩
  · rw [h2 "a"]
    rfl
  · rw [h3]
    decide

end LoggerGo
